import Mathlib

/-!
Shallow embedding of the generation orchestration layer of the
`mistralrs-example` repository (files `src/promp_enhancer.rs`,
`src/cli_chat.rs`, `src/audio_transcription.rs`).

Rust strings are modelled as lists of Unicode scalar values (`List Char`,
matching Rust `char`); Rust `String::len` is the UTF-8 byte length,
modelled by `utf8Len` below via `Char.utf8Size` (which agrees with Rust
`char::len_utf8`).  The external inference runtime is modelled as an
oracle parameter: an inference call's outcome (`Except InferenceError
ChatResponse`) is passed in explicitly, so that each orchestration
function is a pure function of its inputs and the runtime's reply.
-/

deriving instance DecidableEq for Except

namespace MistralrsExample

/-- A Rust string, as its sequence of Unicode scalar values. -/
abbrev Str := List Char

/-- UTF-8 byte length of a string: the meaning of Rust `String::len`. -/
def utf8Len (s : Str) : Nat := (s.map Char.utf8Size).sum

/-- The Unicode `White_Space` code points, the set recognised by Rust
`char::is_whitespace` (used by `str::trim` and `str::split_whitespace`). -/
def rustWhitespace : List Nat :=
  [0x09, 0x0A, 0x0B, 0x0C, 0x0D, 0x20, 0x85, 0xA0, 0x1680,
   0x2000, 0x2001, 0x2002, 0x2003, 0x2004, 0x2005, 0x2006, 0x2007,
   0x2008, 0x2009, 0x200A, 0x2028, 0x2029, 0x202F, 0x205F, 0x3000]

/-- Rust `char::is_whitespace`. -/
def isWS (c : Char) : Bool := rustWhitespace.contains c.toNat

/-- Rust `str::trim`: remove leading and trailing whitespace. -/
def trim (s : Str) : Str :=
  ((s.dropWhile isWS).reverse.dropWhile isWS).reverse

/-- Accumulator-based worker for `splitWhitespace`.  `acc` holds the
current word, reversed. -/
def splitWSAux : Str → Str → List Str
  | [], acc => if acc = [] then [] else [acc.reverse]
  | c :: cs, acc =>
    if isWS c then
      (if acc = [] then [] else [acc.reverse]) ++ splitWSAux cs []
    else
      splitWSAux cs (c :: acc)

/-- Rust `str::split_whitespace` (collected to a vector): the maximal
runs of non-whitespace characters, in order. -/
def splitWhitespace (s : Str) : List Str := splitWSAux s []

/-- Rust `slice::join(" ")`: concatenate words with a single space
between consecutive words. -/
def joinWords : List Str → Str
  | [] => []
  | [w] => w
  | w :: ws => w ++ ' ' :: joinWords ws

/-- `MAX_PROMPT_WORDS` from `promp_enhancer.rs`: the word budget that
keeps prompts inside CLIP's 77-token window. -/
def MAX_PROMPT_WORDS : Nat := 50

/-- `truncate_to_words` from `promp_enhancer.rs`: truncate `text` to at
most `maxWords` whitespace-separated words. -/
def truncate_to_words (text : Str) (maxWords : Nat) : Str :=
  if (splitWhitespace text).length ≤ maxWords then text
  else joinWords ((splitWhitespace text).take maxWords)

/-- Opaque error returned by a failed inference call (`anyhow::Error`
carried through `?`). -/
structure InferenceError where
  code : Nat
deriving DecidableEq

/-- The part of a successful chat response the orchestration layer reads:
`response.choices[0].message.content`, an optional string. -/
structure ChatResponse where
  content : Option Str
deriving DecidableEq

/-- Sampler parameters set on a `RequestBuilder`. -/
structure SamplerConfig where
  temperature : ℚ
  top_p : ℚ
  max_len : Nat
deriving DecidableEq

/-- The message role tags of `mistralrs::TextMessageRole` used here. -/
inductive TextMessageRole where
  | system
  | user
  | assistant
deriving DecidableEq

/-- A generation request: sampler settings plus the ordered message
list built by successive `add_message` calls. -/
structure Request where
  sampler : SamplerConfig
  messages : List (TextMessageRole × Str)
deriving DecidableEq

/-- `RequestBuilder::add_message`: append one (role, content) message. -/
def addMessage (req : Request) (role : TextMessageRole) (content : Str) : Request :=
  { req with messages := req.messages ++ [(role, content)] }

/-- The request assembled by `PromptEnhancer::enhance` (temperature 0.9,
top-p 0.95, max length 80; system prompt then user seed). -/
def enhanceRequest (system_prompt seed : Str) : Request :=
  addMessage (addMessage { sampler := ⟨9/10, 19/20, 80⟩, messages := [] }
    .system system_prompt) .user seed

/-- `PromptEnhancer::enhance`, with the runtime's reply to the assembled
request passed as the oracle argument `resp`.  A runtime failure is
propagated by `?`; otherwise the trimmed content (empty when absent) is
gated against the seed's byte length plus 4 and the surviving string is
truncated to the word budget. -/
def enhance (seed : Str) (resp : Except InferenceError ChatResponse) :
    Except InferenceError Str :=
  match resp with
  | .error e => .error e
  | .ok r =>
    let enhanced := (r.content.map trim).getD []
    if utf8Len enhanced ≤ utf8Len seed + 4 then
      .ok (truncate_to_words seed MAX_PROMPT_WORDS)
    else
      .ok (truncate_to_words enhanced MAX_PROMPT_WORDS)

/-- `PromptEnhancer::enhance_for_song`: build the seed from a song title
and optional style, then run `enhance` on it. -/
def enhance_for_song (song_title : Str) (style : Option Str)
    (resp : Except InferenceError ChatResponse) : Except InferenceError Str :=
  let seed := match style with
    | some s => song_title ++ ',' :: ' ' :: s
    | none => song_title
  enhance seed resp

/-- One conversation message (`ChatTurn` in `cli_chat.rs`). -/
structure ChatTurn where
  role : TextMessageRole
  content : Str
deriving DecidableEq

/-- Interactive chat session state (`CliChat` in `cli_chat.rs`).  The
loaded model handle is an opaque external value of type `M`. -/
structure CliChat (M : Type) where
  model : M
  system_prompt : Str
  history : List ChatTurn
  temperature : ℚ
  top_p : ℚ
  max_len : Nat

/-- `CliChat::from_preset`, given the already-loaded model handle: empty
history, default system prompt when none is supplied, fixed sampler
settings (0.7, 0.95, 512). -/
def fromPreset {M : Type} (model : M) (system_prompt : Option Str) : CliChat M :=
  { model := model
    system_prompt := system_prompt.getD
      "You are a helpful, concise assistant. Answer clearly and accurately.".data
    history := []
    temperature := 7/10
    top_p := 19/20
    max_len := 512 }

/-- The request assembled inside `CliChat::send`: sampler settings from
the session, then the system prompt, the replayed history in order, and
the new user message, each added with `add_message`. -/
def buildRequest {M : Type} (chat : CliChat M) (userMessage : Str) : Request :=
  let req : Request :=
    { sampler := ⟨chat.temperature, chat.top_p, chat.max_len⟩, messages := [] }
  let req := addMessage req .system chat.system_prompt
  let req := chat.history.foldl (fun r t => addMessage r t.role t.content) req
  addMessage req .user userMessage

/-- The placeholder text substituted when a successful response carries
no content. -/
def emptyResponsePlaceholder : Str := "(empty response)".data

/-- `CliChat::send`, with the runtime's reply to `buildRequest chat
userMessage` passed as the oracle argument `resp`.  On failure the error
propagates before any history mutation; on success the trimmed content
(or the placeholder when absent) is returned and the User and Assistant
turns are appended. -/
def send {M : Type} (chat : CliChat M) (userMessage : Str)
    (resp : Except InferenceError ChatResponse) :
    CliChat M × Except InferenceError Str :=
  match resp with
  | .error e => (chat, .error e)
  | .ok r =>
    let assistant := (r.content.map trim).getD emptyResponsePlaceholder
    ({ chat with
        history := chat.history ++
          [⟨.user, userMessage⟩, ⟨.assistant, assistant⟩] },
     .ok assistant)

/-- `CliChat::clear`: empty the history, touch nothing else. -/
def clear {M : Type} (chat : CliChat M) : CliChat M :=
  { chat with history := [] }

/-- Run a sequence of `send` calls, each of which succeeds with the
paired response. -/
def sendMany {M : Type} (chat : CliChat M) :
    List (Str × ChatResponse) → CliChat M
  | [] => chat
  | (msg, r) :: rest => sendMany (send chat msg (.ok r)).1 rest

/-- The two turns a single successful `send` appends. -/
def stepTurns (p : Str × ChatResponse) : List ChatTurn :=
  [⟨.user, p.1⟩, ⟨.assistant, (p.2.content.map trim).getD emptyResponsePlaceholder⟩]

/-- A history of the shape User, Assistant, User, Assistant, … (even
length, starting with User). -/
def alternatingUA : List ChatTurn → Bool
  | [] => true
  | [_] => false
  | u :: a :: rest =>
    u.role = TextMessageRole.user && a.role = TextMessageRole.assistant &&
      alternatingUA rest

/-- The decoded audio attachment (`mistralrs::AudioInput`): interleaved
samples, sample rate, channel count. -/
structure AudioInput where
  samples : List ℚ
  sample_rate : Nat
  channels : Nat

/-- `TranscriptionResult` from `audio_transcription.rs`.  The two `f64`
time quantities are modelled as exact rationals (seconds). -/
structure TranscriptionResult where
  text : Str
  audio_duration_secs : ℚ
  inference_duration : ℚ
  sample_rate : Nat
  channels : Nat

/-- `AudioTranscriber::transcribe_audio`, with the runtime's reply and
the measured inference wall-clock time passed as oracle arguments. -/
def transcribe_audio (audio : AudioInput)
    (resp : Except InferenceError ChatResponse) (inferenceTime : ℚ) :
    Except InferenceError TranscriptionResult :=
  match resp with
  | .error e => .error e
  | .ok r =>
    .ok { text := (r.content.map trim).getD []
          audio_duration_secs :=
            (audio.samples.length : ℚ) /
              ((audio.sample_rate : ℚ) * (audio.channels : ℚ))
          inference_duration := inferenceTime
          sample_rate := audio.sample_rate
          channels := audio.channels }

/-- The value of `TranscriptionResult::real_time_factor`: a finite
rational or positive infinity. -/
inductive RtFactor where
  | finite (q : ℚ)
  | posInfinity
deriving DecidableEq

/-- `TranscriptionResult::real_time_factor`: inference time over audio
duration, positive infinity when the duration is not positive. -/
def real_time_factor (r : TranscriptionResult) : RtFactor :=
  if 0 < r.audio_duration_secs then
    .finite (r.inference_duration / r.audio_duration_secs)
  else
    .posInfinity

/-! ## Helper lemmas -/

/-- Every word produced by the split worker is non-empty and free of
whitespace characters, provided the accumulator is. -/
theorem splitWSAux_clean (s : Str) : ∀ acc : Str, (∀ c ∈ acc, isWS c = false) →
    ∀ w ∈ splitWSAux s acc, w ≠ [] ∧ ∀ c ∈ w, isWS c = false := by
  induction s with
  | nil =>
    intro acc hacc w hw
    simp only [splitWSAux] at hw
    split at hw
    · simp at hw
    · rename_i hne
      simp only [List.mem_singleton] at hw
      subst hw
      refine ⟨by simpa using hne, fun c hc => hacc c (List.mem_reverse.mp hc)⟩
  | cons c cs ih =>
    intro acc hacc w hw
    simp only [splitWSAux] at hw
    split at hw
    · rcases List.mem_append.mp hw with h1 | h2
      · split at h1
        · simp at h1
        · rename_i hne
          simp only [List.mem_singleton] at h1
          subst h1
          refine ⟨by simpa using hne, fun x hx => hacc x (List.mem_reverse.mp hx)⟩
      · exact ih [] (by simp) w h2
    · rename_i hc
      refine ih (c :: acc) ?_ w hw
      intro x hx
      rcases List.mem_cons.mp hx with rfl | hx2
      · simpa using hc
      · exact hacc x hx2

/-- Every word of `splitWhitespace` is non-empty and whitespace-free. -/
theorem splitWhitespace_clean (t : Str) :
    ∀ w ∈ splitWhitespace t, w ≠ [] ∧ ∀ c ∈ w, isWS c = false :=
  splitWSAux_clean t [] (by simp)

/-- Feeding a whitespace-free prefix into the split worker just moves it
into the accumulator. -/
theorem splitWSAux_append (w : Str) (hw : ∀ c ∈ w, isWS c = false) :
    ∀ cs acc, splitWSAux (w ++ cs) acc = splitWSAux cs (w.reverse ++ acc) := by
  induction w with
  | nil => intro cs acc; simp
  | cons c w2 ih =>
    intro cs acc
    have hc : isWS c = false := hw c (by simp)
    simp only [List.cons_append, splitWSAux, hc, Bool.false_eq_true, if_false]
    rw [show (c :: w2).reverse ++ acc = w2.reverse ++ (c :: acc) by simp]
    exact ih (fun x hx => hw x (by simp [hx])) cs (c :: acc)

/-- Splitting the single-space join of clean words gives the words back. -/
theorem splitWhitespace_joinWords : ∀ ws : List Str,
    (∀ w ∈ ws, w ≠ [] ∧ ∀ c ∈ w, isWS c = false) →
    splitWhitespace (joinWords ws) = ws := by
  intro ws
  induction ws with
  | nil => intro _; rfl
  | cons w ws ih =>
    intro h
    obtain ⟨hwne, hwclean⟩ := h w (by simp)
    cases ws with
    | nil =>
      show splitWSAux (joinWords [w]) [] = [w]
      have haux := splitWSAux_append w hwclean [] []
      simp only [List.append_nil] at haux
      simp only [joinWords]
      rw [haux]
      simp only [splitWSAux]
      rw [if_neg (by simpa using hwne)]
      simp
    | cons w2 ws2 =>
      show splitWSAux (joinWords (w :: w2 :: ws2)) [] = w :: w2 :: ws2
      have hjoin : joinWords (w :: w2 :: ws2) = w ++ ' ' :: joinWords (w2 :: ws2) := rfl
      rw [hjoin, splitWSAux_append w hwclean (' ' :: joinWords (w2 :: ws2)) []]
      simp only [List.append_nil, splitWSAux]
      rw [if_pos (show isWS ' ' = true from rfl)]
      rw [if_neg (by simpa using hwne)]
      have hih := ih (fun x hx => h x (by simp [hx]))
      simp only [splitWhitespace] at hih
      simp [hih]

/-- The output of `truncate_to_words` never has more than `n` words. -/
theorem wordcount_truncate (t : Str) (n : Nat) :
    (splitWhitespace (truncate_to_words t n)).length ≤ n := by
  unfold truncate_to_words
  split
  · rename_i h; exact h
  · rename_i h
    rw [splitWhitespace_joinWords]
    · simp only [List.length_take]
      exact Nat.min_le_left n _
    · intro w hw
      exact splitWhitespace_clean t w (List.take_subset _ _ hw)

/-- The single-space join of a non-empty list of words is non-empty. -/
theorem joinWords_ne_nil (ws : List Str) (h0 : ws ≠ []) (h1 : ∀ w ∈ ws, w ≠ []) :
    joinWords ws ≠ [] := by
  cases ws with
  | nil => simp at h0
  | cons w ws =>
    cases ws with
    | nil => simpa using h1 w (by simp)
    | cons w2 ws2 =>
      show w ++ ' ' :: joinWords (w2 :: ws2) ≠ []
      simp

/-- `truncate_to_words` preserves non-emptiness for a positive budget. -/
theorem truncate_ne_nil (t : Str) (ht : t ≠ []) (n : Nat) (hn : 0 < n) :
    truncate_to_words t n ≠ [] := by
  unfold truncate_to_words
  split
  · exact ht
  · rename_i h
    apply joinWords_ne_nil
    · have hlt : n < (splitWhitespace t).length := Nat.lt_of_not_le h
      have hlen : ((splitWhitespace t).take n).length = n := by
        rw [List.length_take]
        exact Nat.min_eq_left (Nat.le_of_lt hlt)
      intro hc
      rw [hc] at hlen
      simp at hlen
      omega
    · intro w hw
      exact (splitWhitespace_clean t w (List.take_subset _ _ hw)).1

/-- A non-empty string has positive UTF-8 byte length. -/
theorem utf8Len_pos (s : Str) (h : s ≠ []) : 0 < utf8Len s := by
  cases s with
  | nil => simp at h
  | cons c cs =>
    have hc := Char.utf8Size_pos c
    simp only [utf8Len, List.map_cons, List.sum_cons]
    omega

/-- `addMessage` appends one message to the request's message list. -/
theorem addMessage_messages (req : Request) (role : TextMessageRole) (content : Str) :
    (addMessage req role content).messages = req.messages ++ [(role, content)] := rfl

/-- Appending messages with `foldl` over turns appends their projections. -/
theorem foldl_addMessage_messages (turns : List ChatTurn) :
    ∀ req : Request,
      (turns.foldl (fun r t => addMessage r t.role t.content) req).messages
        = req.messages ++ turns.map (fun t => (t.role, t.content)) := by
  induction turns with
  | nil => intro req; simp
  | cons t ts ih =>
    intro req
    simp only [List.foldl_cons, List.map_cons]
    rw [ih]
    simp [addMessage]

/-- `sendMany` appends exactly the two turns of each successful step. -/
theorem sendMany_history {M : Type} (steps : List (Str × ChatResponse)) :
    ∀ chat : CliChat M,
      (sendMany chat steps).history = chat.history ++ (steps.map stepTurns).flatten := by
  induction steps with
  | nil => intro chat; simp [sendMany]
  | cons p rest ih =>
    intro chat
    obtain ⟨msg, r⟩ := p
    simp only [sendMany, send]
    rw [ih]
    simp [stepTurns]

/-- The turns produced by a run of successful sends number twice the
number of sends. -/
theorem stepTurns_join_length (steps : List (Str × ChatResponse)) :
    ((steps.map stepTurns).flatten).length = 2 * steps.length := by
  induction steps with
  | nil => rfl
  | cons p rest ih =>
    simp only [List.map_cons, List.flatten_cons, List.length_append, List.length_cons,
      stepTurns, ih]
    simp
    omega

/-- The turns produced by a run of successful sends alternate
User/Assistant starting with User. -/
theorem alternatingUA_join (steps : List (Str × ChatResponse)) :
    alternatingUA ((steps.map stepTurns).flatten) = true := by
  induction steps with
  | nil => rfl
  | cons p rest ih =>
    simp only [List.map_cons, List.flatten_cons, stepTurns, List.cons_append,
      List.nil_append, alternatingUA]
    simpa using ih

/-! ## Claim theorems -/

/-- C1, counterexample: the claim's degeneracy gate is stated in
character lengths, but `String::len` counts UTF-8 bytes.  With seed
`"a"` (1 char, 1 byte) and trimmed response `"ééé"` (3 chars, 6 bytes),
the trimmed response's character length (3) is at most the seed's
character length plus 4 (5), so the claim demands fallback to the seed;
the code compares 6 against 1 + 4 = 5 and keeps the enhanced text. -/
theorem enhance_char_gate_cex :
    (trim ['é', 'é', 'é']).length ≤ (['a'] : Str).length + 4 ∧
    enhance ['a'] (.ok ⟨some ['é', 'é', 'é']⟩)
      ≠ .ok (truncate_to_words ['a'] MAX_PROMPT_WORDS) := by
  decide

/-- C1, amended: with length measured in UTF-8 bytes (`utf8Len`, Rust
`String::len`) the gate is exact — the pipeline falls back to the seed
precisely when the trimmed response's byte length is at most the seed's
byte length plus 4, and otherwise uses the (truncated) trimmed response,
so the boundary at byte length L+4 versus L+5 is sharp. -/
theorem enhance_byte_gate (seed resp : Str) :
    (utf8Len (trim resp) ≤ utf8Len seed + 4 →
      enhance seed (.ok ⟨some resp⟩)
        = .ok (truncate_to_words seed MAX_PROMPT_WORDS)) ∧
    (utf8Len seed + 4 < utf8Len (trim resp) →
      enhance seed (.ok ⟨some resp⟩)
        = .ok (truncate_to_words (trim resp) MAX_PROMPT_WORDS)) := by
  have hred : enhance seed (.ok ⟨some resp⟩)
      = if utf8Len (trim resp) ≤ utf8Len seed + 4
        then .ok (truncate_to_words seed MAX_PROMPT_WORDS)
        else .ok (truncate_to_words (trim resp) MAX_PROMPT_WORDS) := rfl
  rw [hred]
  constructor
  · intro h; rw [if_pos h]
  · intro h; rw [if_neg (by omega)]

/-- Witness for C1: at seed `"cat"` (7 = 3 + 4 bytes echo limit), a
7-byte response falls back and an 8-byte response is kept. -/
theorem enhance_byte_gate_wit :
    enhance "cat".data (.ok ⟨some "abcdefg".data⟩) = .ok "cat".data ∧
    enhance "cat".data (.ok ⟨some "abcdefgh".data⟩) = .ok "abcdefgh".data := by
  constructor
  · rw [(enhance_byte_gate "cat".data "abcdefg".data).1 (by decide)]
    decide
  · rw [(enhance_byte_gate "cat".data "abcdefgh".data).2 (by decide)]
    decide

/-- C2: with budget 50, `truncate_to_words` returns the input string
itself (original whitespace included) when it has at most 50
whitespace-separated words, and otherwise the first 50 words in order,
rejoined with single spaces. -/
theorem truncate_to_words_spec (text : Str) :
    ((splitWhitespace text).length ≤ 50 → truncate_to_words text 50 = text) ∧
    (50 < (splitWhitespace text).length →
      truncate_to_words text 50 = joinWords ((splitWhitespace text).take 50)) := by
  unfold truncate_to_words
  constructor
  · intro h; rw [if_pos h]
  · intro h; rw [if_neg (by omega)]

/-- Witness for C2: a 3-word string passes through unchanged; a 51-word
string is cut to its first 50 words. -/
theorem truncate_to_words_spec_wit :
    truncate_to_words "one two three".data 50 = "one two three".data ∧
    truncate_to_words (joinWords (List.replicate 51 ['w'])) 50
      = joinWords (List.replicate 50 ['w']) := by
  constructor
  · exact (truncate_to_words_spec "one two three".data).1 (by decide)
  · rw [(truncate_to_words_spec (joinWords (List.replicate 51 ['w']))).2 (by decide)]
    decide

/-- C3, counterexample: the result of `enhance` is not always non-empty.
With the empty seed and an empty (degenerate) response, the pipeline
falls back to the empty seed and returns the empty string. -/
theorem enhance_nonempty_cex :
    ¬ (∀ out : Str, enhance [] (.ok ⟨some []⟩) = .ok out → out ≠ []) := by
  intro h
  exact h [] (by decide) rfl

/-- C3, amended: for every seed and successful response, `enhance`
returns a string of at most 50 whitespace-separated words, and that
string is non-empty whenever the seed is non-empty. -/
theorem enhance_bounded_nonempty (seed : Str) (r : ChatResponse) :
    ∃ out : Str, enhance seed (.ok r) = .ok out ∧
      (splitWhitespace out).length ≤ MAX_PROMPT_WORDS ∧
      (seed ≠ [] → out ≠ []) := by
  have hred : enhance seed (.ok r)
      = if utf8Len ((r.content.map trim).getD []) ≤ utf8Len seed + 4
        then .ok (truncate_to_words seed MAX_PROMPT_WORDS)
        else .ok (truncate_to_words ((r.content.map trim).getD []) MAX_PROMPT_WORDS) := rfl
  rw [hred]
  split
  · exact ⟨_, rfl, wordcount_truncate _ _,
      fun hs => truncate_ne_nil _ hs _ (by decide)⟩
  · rename_i hgt
    refine ⟨_, rfl, wordcount_truncate _ _, fun _ => ?_⟩
    refine truncate_ne_nil _ ?_ _ (by decide)
    intro hnil
    rw [hnil] at hgt
    simp [utf8Len] at hgt

/-- Witness for C3: a non-empty seed with a degenerate response yields
the (non-empty, within-budget) seed. -/
theorem enhance_bounded_nonempty_wit :
    ∃ out : Str, enhance "cat".data (.ok ⟨some []⟩) = .ok out ∧
      (splitWhitespace out).length ≤ MAX_PROMPT_WORDS ∧
      ("cat".data ≠ [] → out ≠ []) :=
  enhance_bounded_nonempty "cat".data ⟨some []⟩

/-- C7: `enhance_for_song` composes the seed `"{subject}, {style}"` when
a style is given and the subject alone otherwise, then returns exactly
the result of `enhance` on that seed. -/
theorem enhance_for_song_spec (song_title : Str) (style : Option Str)
    (resp : Except InferenceError ChatResponse) :
    (∀ s : Str, style = some s →
      enhance_for_song song_title style resp
        = enhance (song_title ++ ',' :: ' ' :: s) resp) ∧
    (style = none →
      enhance_for_song song_title style resp = enhance song_title resp) := by
  constructor
  · rintro s rfl; rfl
  · rintro rfl; rfl

/-- Witness for C7: both the styled and the style-free composition at
concrete inputs. -/
theorem enhance_for_song_spec_wit :
    enhance_for_song "Main Theme".data (some "oil painting".data) (.error ⟨0⟩)
      = enhance ("Main Theme".data ++ ',' :: ' ' :: "oil painting".data) (.error ⟨0⟩) ∧
    enhance_for_song "Main Theme".data none (.error ⟨0⟩)
      = enhance "Main Theme".data (.error ⟨0⟩) :=
  ⟨(enhance_for_song_spec "Main Theme".data (some "oil painting".data)
      (.error ⟨0⟩)).1 "oil painting".data rfl,
   (enhance_for_song_spec "Main Theme".data none (.error ⟨0⟩)).2 rfl⟩

/-- C9: a failed inference call inside `enhance` is returned to the
caller unmodified — no fallback to the seed — while a successful call
always produces a string result (the fallback happens only there). -/
theorem enhance_failure_propagates (seed : Str) (e : InferenceError)
    (r : ChatResponse) :
    enhance seed (.error e) = .error e ∧
    ∃ out : Str, enhance seed (.ok r) = .ok out := by
  refine ⟨rfl, ?_⟩
  have hred : enhance seed (.ok r)
      = if utf8Len ((r.content.map trim).getD []) ≤ utf8Len seed + 4
        then .ok (truncate_to_words seed MAX_PROMPT_WORDS)
        else .ok (truncate_to_words ((r.content.map trim).getD []) MAX_PROMPT_WORDS) := rfl
  rw [hred]
  split
  · exact ⟨_, rfl⟩
  · exact ⟨_, rfl⟩

/-- C4: one `send` call changes the history by exactly 0 or 2 turns: on
a failed inference call the whole session state is returned untouched
and the error propagates; on success exactly a User turn with the
submitted text and an Assistant turn with the returned text are
appended, and nothing else changes. -/
theorem send_atomic_append {M : Type} (chat : CliChat M) (msg : Str) :
    (∀ e : InferenceError, send chat msg (.error e) = (chat, .error e)) ∧
    (∀ r : ChatResponse, ∃ a : Str,
      (send chat msg (.ok r)).2 = .ok a ∧
      (send chat msg (.ok r)).1.history
        = chat.history ++ [⟨.user, msg⟩, ⟨.assistant, a⟩] ∧
      (send chat msg (.ok r)).1.model = chat.model ∧
      (send chat msg (.ok r)).1.system_prompt = chat.system_prompt) :=
  ⟨fun _ => rfl,
   fun r => ⟨(r.content.map trim).getD emptyResponsePlaceholder, rfl, rfl, rfl, rfl⟩⟩

/-- C5: the request assembled by a chat `send` holds exactly the system
prompt first, then the history in original append order, then the new
user turn last, so its message count is the history length plus 2. -/
theorem buildRequest_messages {M : Type} (chat : CliChat M) (T : Str) :
    (buildRequest chat T).messages
      = (TextMessageRole.system, chat.system_prompt)
          :: chat.history.map (fun t => (t.role, t.content))
          ++ [(TextMessageRole.user, T)] ∧
    (buildRequest chat T).messages.length = chat.history.length + 2 := by
  have hmsg : (buildRequest chat T).messages
      = (TextMessageRole.system, chat.system_prompt)
          :: chat.history.map (fun t => (t.role, t.content))
          ++ [(TextMessageRole.user, T)] := by
    simp only [buildRequest]
    rw [addMessage_messages, foldl_addMessage_messages, addMessage_messages]
    simp
  refine ⟨hmsg, ?_⟩
  rw [hmsg]
  simp

/-- C6: starting from a fresh session, N successful `send` calls leave
exactly 2N turns alternating User, Assistant, … starting with User, and
`clear` empties the history of any session while leaving the model
handle and system prompt untouched. -/
theorem chat_session_invariants {M : Type} (chat : CliChat M)
    (hfresh : chat.history = []) (steps : List (Str × ChatResponse)) :
    (sendMany chat steps).history.length = 2 * steps.length ∧
    alternatingUA (sendMany chat steps).history = true ∧
    ∀ c : CliChat M, (clear c).history.length = 0 ∧
      (clear c).model = c.model ∧ (clear c).system_prompt = c.system_prompt := by
  have h := sendMany_history (M := M) steps chat
  rw [hfresh, List.nil_append] at h
  refine ⟨?_, ?_, fun c => ⟨rfl, rfl, rfl⟩⟩
  · rw [h]; exact stepTurns_join_length steps
  · rw [h]; exact alternatingUA_join steps

/-- Witness for C6: one successful send on a fresh session yields a
2-turn history. -/
theorem chat_session_invariants_wit :
    (sendMany (fromPreset (0 : Nat) none)
        [("hi".data, ⟨some "yo".data⟩)]).history.length
      = 2 * [("hi".data, (⟨some "yo".data⟩ : ChatResponse))].length :=
  (chat_session_invariants (fromPreset (0 : Nat) none) rfl
    [("hi".data, ⟨some "yo".data⟩)]).1

/-- C8: the transcription result records the audio duration
`sample_count / (sample_rate * channel_count)` from the decoded
attachment, and its real-time factor is inference time over duration
when the duration is positive and positive infinity when it is zero
(all `f64` quantities modelled as exact rationals). -/
theorem transcription_duration_rtf (audio : AudioInput) (r : ChatResponse)
    (t : ℚ) :
    ∃ res : TranscriptionResult, transcribe_audio audio (.ok r) t = .ok res ∧
      res.audio_duration_secs
        = (audio.samples.length : ℚ)
            / ((audio.sample_rate : ℚ) * (audio.channels : ℚ)) ∧
      res.inference_duration = t ∧
      (0 < res.audio_duration_secs →
        real_time_factor res = .finite (t / res.audio_duration_secs)) ∧
      (res.audio_duration_secs = 0 → real_time_factor res = .posInfinity) := by
  refine ⟨_, rfl, rfl, rfl, ?_, ?_⟩
  · intro h
    simp only [real_time_factor]
    rw [if_pos h]
  · intro h
    have h2 : (audio.samples.length : ℚ)
        / ((audio.sample_rate : ℚ) * (audio.channels : ℚ)) = 0 := h
    simp only [real_time_factor]
    rw [if_neg (by rw [h2]; exact lt_irrefl 0)]

/-- Witness for C8: four samples at 2 Hz mono give a 2-second duration;
with 1 second of inference the real-time factor is 1/2 (= 0.5). -/
theorem transcription_duration_rtf_wit :
    ∃ res : TranscriptionResult,
      transcribe_audio ⟨[0, 0, 0, 0], 2, 1⟩ (.ok ⟨some []⟩) 1 = .ok res ∧
      res.audio_duration_secs = 2 ∧
      real_time_factor res = .finite (1 / 2) := by
  obtain ⟨res, h1, h2, h3, h4, _⟩ :=
    transcription_duration_rtf ⟨[0, 0, 0, 0], 2, 1⟩ ⟨some []⟩ 1
  have hdur : res.audio_duration_secs = 2 := by
    rw [h2]; norm_num
  refine ⟨res, h1, hdur, ?_⟩
  rw [h4 (by rw [hdur]; norm_num), hdur]

/-- C10: when a successful response carries no text content, `send`
returns the literal placeholder "(empty response)" as a success and
appends it as the Assistant turn. -/
theorem send_empty_content_placeholder {M : Type} (chat : CliChat M) (msg : Str) :
    (send chat msg (.ok ⟨none⟩)).2 = .ok emptyResponsePlaceholder ∧
    (send chat msg (.ok ⟨none⟩)).1.history
      = chat.history ++ [⟨.user, msg⟩, ⟨.assistant, emptyResponsePlaceholder⟩] ∧
    emptyResponsePlaceholder = "(empty response)".data :=
  ⟨rfl, rfl, rfl⟩

end MistralrsExample
